import Mathlib

/-!
Shallow embedding of the Field Elevate hub core: the shared context store
(mcp-hub/src/context-manager.ts), the service registry and health monitor
(mcp-hub/src/app-registry.ts, context-manager.ts), the per-agent memory
manager and reasoning engine (ai-coo/src/core/reasoning-engine.ts), the
master coordinator workflow engine (MasterCoordinator) and the circuit
breaker (shared/utils/error-handling.ts).

Numeric quantities that the source handles as JavaScript numbers are
modelled as rationals; timestamps as naturals (milliseconds).
-/

namespace FieldElevate

/-! ## Sorting infrastructure

JavaScript comparator sorts of the form xs.sort((a, b) => f(a) - f(b)) are
modelled as a stable insertion sort ascending in the rational key f. -/

/-- Insertion of one element into a list that is ascending in the key f. -/
def insertBy {α : Type} (f : α → ℚ) (a : α) : List α → List α
  | [] => [a]
  | b :: l => if f a ≤ f b then a :: b :: l else b :: insertBy f a l

/-- Stable ascending sort by the rational key f, modelling a JavaScript
comparator sort with comparator (a, b) => f(a) - f(b). -/
def sortBy {α : Type} (f : α → ℚ) : List α → List α
  | [] => []
  | a :: l => insertBy f a (sortBy f l)

theorem insertBy_perm {α : Type} (f : α → ℚ) (a : α) :
    ∀ l : List α, List.Perm (insertBy f a l) (a :: l)
  | [] => List.Perm.refl _
  | b :: l => by
    by_cases h : f a ≤ f b
    · simp [insertBy, h]
    · simp only [insertBy, if_neg h]
      exact ((insertBy_perm f a l).cons b).trans (List.Perm.swap a b l)

theorem sortBy_perm {α : Type} (f : α → ℚ) :
    ∀ l : List α, List.Perm (sortBy f l) l
  | [] => List.Perm.refl _
  | a :: l => (insertBy_perm f a (sortBy f l)).trans ((sortBy_perm f l).cons a)

theorem pairwise_insertBy {α : Type} (f : α → ℚ) (a : α) :
    ∀ l : List α, l.Pairwise (fun x y => f x ≤ f y) →
      (insertBy f a l).Pairwise (fun x y => f x ≤ f y) := by
  intro l
  induction l with
  | nil => intro _; simp [insertBy]
  | cons b l ih =>
    intro hp
    rw [List.pairwise_cons] at hp
    obtain ⟨hb, hl⟩ := hp
    by_cases h : f a ≤ f b
    · simp only [insertBy, if_pos h]
      refine List.Pairwise.cons ?_ (List.Pairwise.cons hb hl)
      intro x hx
      rcases List.mem_cons.mp hx with rfl | hx2
      · exact h
      · exact le_trans h (hb x hx2)
    · simp only [insertBy, if_neg h]
      refine List.Pairwise.cons ?_ (ih hl)
      intro x hx
      rcases List.mem_cons.mp ((insertBy_perm f a l).mem_iff.mp hx) with rfl | hx2
      · exact le_of_lt (lt_of_not_ge h)
      · exact hb x hx2

theorem pairwise_sortBy {α : Type} (f : α → ℚ) :
    ∀ l : List α, (sortBy f l).Pairwise (fun x y => f x ≤ f y)
  | [] => List.Pairwise.nil
  | a :: l => pairwise_insertBy f a _ (pairwise_sortBy f l)

/-- Elements in the taken prefix of a pairwise-ordered list are related to
every element of the remaining suffix. -/
theorem pairwise_take_drop {α : Type} {r : α → α → Prop} :
    ∀ (l : List α) (k : ℕ), l.Pairwise r →
      ∀ x ∈ l.take k, ∀ y ∈ l.drop k, r x y := by
  intro l
  induction l with
  | nil => intro k _ x hx; simp at hx
  | cons a l ih =>
    intro k hp x hx y hy
    cases k with
    | zero => simp at hx
    | succ k =>
      rw [List.pairwise_cons] at hp
      obtain ⟨ha, hl⟩ := hp
      rw [List.take_succ_cons] at hx
      rw [List.drop_succ_cons] at hy
      rcases List.mem_cons.mp hx with rfl | hx2
      · exact ha y (List.drop_subset k l hy)
      · exact ih k hl x hx2 y hy

/-- Removing the elements of t one occurrence at a time from a list that is
a permutation of t ++ r leaves a permutation of r. -/
theorem foldl_erase_perm {α : Type} [DecidableEq α] :
    ∀ (t l r : List α), List.Perm l (t ++ r) →
      List.Perm (t.foldl (fun acc m => acc.erase m) l) r := by
  intro t
  induction t with
  | nil => intro l r h; simpa using h
  | cons a t ih =>
    intro l r h
    have h2 : List.Perm (l.erase a) (t ++ r) := by
      have h3 := h.erase a
      simpa using h3
    simpa using ih (l.erase a) r h2

/-! ## MemoryManager (ai-coo/src/core/reasoning-engine.ts)

The short-term tier is a Redis hash of id-keyed memory items, modelled as a
list. The similarity and recency fields carry, as given rational inputs, the
quantities cosineSimilarity(queryEmbedding, item.embedding) and
exp(-hoursSinceLastAccess/24) that the source computes with floating-point
sqrt and exp on the external embedding vectors; the combination of those
quantities into a relevance score, the sorting, capacity eviction and
access bookkeeping are modelled exactly. -/

/-- Memory item of the per-agent MemoryManager. The id, importance, decay,
accessCount and lastAccessed fields follow the source MemoryItem; the
payload, embedding vector and association list are opaque to every claim
and omitted. -/
structure MemoryItem where
  id : String
  importance : ℚ
  decay : ℚ
  accessCount : Nat
  lastAccessed : Nat
  similarity : ℚ
  recency : ℚ
deriving DecidableEq

/-- Eviction score importance * decay * (accessCount + 1) used by
MemoryManager.manageCapacity. -/
def evictionScore (m : MemoryItem) : ℚ :=
  m.importance * m.decay * (m.accessCount + 1)

/-- Short-term capacity, source field shortTermCapacity = 50. -/
def shortTermCapacity : Nat := 50

/-- MemoryManager.manageCapacity: when the short-term tier exceeds cap,
sort ascending by eviction score and delete the first length - cap items
from the hash (one hDel per item). -/
def manageCapacity (cap : Nat) (l : List MemoryItem) : List MemoryItem :=
  if l.length > cap then
    ((sortBy evictionScore l).take (l.length - cap)).foldl
      (fun acc m => acc.erase m) l
  else l

/-- MemoryManager.store: the new item enters the short-term tier with
accessCount 0 and decay 1.0, then capacity is managed. Embedding
generation and long-term promotion do not touch the short-term tier. -/
def store (now : Nat) (l : List MemoryItem) (m : MemoryItem) : List MemoryItem :=
  manageCapacity shortTermCapacity
    (l ++ [{ m with accessCount := 0, decay := 1, lastAccessed := now }])

/-- Relevance score of MemoryManager.retrieveRelevant:
similarity * 0.5 + recency * 0.2 + (importance * decay) * 0.3. -/
def relevanceScore (m : MemoryItem) : ℚ :=
  m.similarity * 0.5 + m.recency * 0.2 + m.importance * m.decay * 0.3

/-- Access bookkeeping applied to every returned item: accessCount is
incremented and lastAccessed set to the retrieval time. -/
def bumpAccess (now : Nat) (m : MemoryItem) : MemoryItem :=
  { m with accessCount := m.accessCount + 1, lastAccessed := now }

/-- Descending comparator sort (a, b) => f(b) - f(a), encoded as the
ascending sort on the negated key. -/
def sortByDesc {α : Type} (f : α → ℚ) (l : List α) : List α :=
  sortBy (fun a => -(f a)) l

/-- MemoryManager.retrieveRelevant: score all candidates, sort descending
by score, take the top limit and bump their access statistics. -/
def retrieveRelevant (l : List MemoryItem) (limit : Nat) (now : Nat) :
    List MemoryItem :=
  ((sortByDesc relevanceScore l).take limit).map (bumpAccess now)

theorem manageCapacity_perm (cap : Nat) (l : List MemoryItem)
    (h : l.length > cap) :
    List.Perm (manageCapacity cap l)
      ((sortBy evictionScore l).drop (l.length - cap)) := by
  simp only [manageCapacity, if_pos h]
  refine foldl_erase_perm _ _ _ ?_
  rw [List.take_append_drop]
  exact (sortBy_perm evictionScore l).symm

theorem manageCapacity_length_le (cap : Nat) (l : List MemoryItem) :
    (manageCapacity cap l).length ≤ cap := by
  by_cases h : l.length > cap
  · have hp := manageCapacity_perm cap l h
    rw [hp.length_eq, List.length_drop, (sortBy_perm evictionScore l).length_eq]
    omega
  · simp only [manageCapacity, if_neg h]
    omega

/-- Memory with eviction score 1, used to exercise capacity eviction. -/
def memA : MemoryItem := ⟨"a", 1, 1, 0, 0, 0, 0⟩

/-- Memory with eviction score 1/2, used to exercise capacity eviction. -/
def memB : MemoryItem := ⟨"b", 1/2, 1, 0, 0, 0, 0⟩

/-- Example memory of spec section 8: similarity 0.9, recency 0.1,
importance * decay 0.2; relevance score 0.53. -/
def memEx1 : MemoryItem := ⟨"m1", 0.2, 1, 0, 0, 0.9, 0.1⟩

/-- Example memory of spec section 8: similarity 0.2, recency 0.9,
importance * decay 0.9; relevance score 0.55. -/
def memEx2 : MemoryItem := ⟨"m2", 0.9, 1, 0, 0, 0.2, 0.9⟩

/-- Example memory of spec section 8: similarity 0.5, recency 0.5,
importance * decay 0.5; relevance score 0.5. -/
def memEx3 : MemoryItem := ⟨"m3", 0.5, 1, 0, 0, 0.5, 0.5⟩

/-- C3: after any sequence of store calls the short-term tier holds at most
the configured capacity of 50 items, and when capacity is exceeded the
eviction pass removes exactly enough lowest-scoring items (score
importance * decay * (accessCount + 1)) to return the tier to capacity:
every fully evicted item scores at most every surviving item. -/
theorem memory_capacity_invariant :
    shortTermCapacity = 50 ∧
    (∀ seq : List (Nat × MemoryItem),
       (seq.foldl (fun acc p => store p.1 acc p.2) []).length ≤ 50) ∧
    (∀ (now : Nat) (l : List MemoryItem) (m : MemoryItem),
       (store now l m).length ≤ 50) ∧
    (∀ (cap : Nat) (l : List MemoryItem), l.length > cap →
       (manageCapacity cap l).length = cap ∧
       (∀ x ∈ l, x ∉ manageCapacity cap l →
          ∀ y ∈ manageCapacity cap l, evictionScore x ≤ evictionScore y)) := by
  have hstore : ∀ (now : Nat) (l : List MemoryItem) (m : MemoryItem),
      (store now l m).length ≤ 50 := by
    intro now l m
    exact manageCapacity_length_le shortTermCapacity _
  refine ⟨rfl, ?_, hstore, ?_⟩
  · intro seq
    have : ∀ (s : List (Nat × MemoryItem)) (init : List MemoryItem),
        init.length ≤ 50 →
        (s.foldl (fun acc p => store p.1 acc p.2) init).length ≤ 50 := by
      intro s
      induction s with
      | nil => intro init h; simpa using h
      | cons p s ih =>
        intro init _
        exact ih (store p.1 init p.2) (hstore p.1 init p.2)
    exact this seq [] (by simp)
  · intro cap l h
    have hperm := manageCapacity_perm cap l h
    constructor
    · rw [hperm.length_eq, List.length_drop,
        (sortBy_perm evictionScore l).length_eq]
      omega
    · intro x hx hnx y hy
      have hy2 : y ∈ (sortBy evictionScore l).drop (l.length - cap) :=
        hperm.mem_iff.mp hy
      have hx2 : x ∈ sortBy evictionScore l :=
        (sortBy_perm evictionScore l).mem_iff.mpr hx
      rw [← List.take_append_drop (l.length - cap) (sortBy evictionScore l)]
        at hx2
      rcases List.mem_append.mp hx2 with hx3 | hx3
      · exact pairwise_take_drop (sortBy evictionScore l) (l.length - cap)
          (pairwise_sortBy evictionScore l) x hx3 y hy2
      · exact absurd (hperm.mem_iff.mpr hx3) hnx

theorem manageCapacity_two_one : manageCapacity 1 [memA, memB] = [memA] := by
  norm_num [manageCapacity, sortBy, insertBy, evictionScore, memA, memB,
    List.erase_cons]

/-- Witness: a two-item tier over capacity 1 evicts the item with the
lower eviction score and keeps exactly one item. -/
theorem memory_capacity_invariant_witness :
    (manageCapacity 1 [memA, memB]).length = 1 ∧
    evictionScore memB ≤ evictionScore memA :=
  ⟨(memory_capacity_invariant.2.2.2 1 [memA, memB] (by decide)).1,
   (memory_capacity_invariant.2.2.2 1 [memA, memB] (by decide)).2
     memB (by simp)
     (by rw [manageCapacity_two_one]; simp [memA, memB])
     memA (by rw [manageCapacity_two_one]; simp)⟩

/-- C4: retrieveRelevant scores each candidate as similarity * 0.5 +
recency * 0.2 + importance * decay * 0.3, returns the top limit items by
that score with accessCount incremented and lastAccessed refreshed, and on
the spec's three-memory example with limit 1 returns the second memory,
whose score is 0.55. Similarity and recency are carried as given inputs
since the source computes them with floating-point sqrt and exp. -/
theorem retrieveRelevant_spec :
    (∀ (l : List MemoryItem) (limit now : Nat),
       (retrieveRelevant l limit now).length = min limit l.length) ∧
    (∀ (l : List MemoryItem) (limit now : Nat) (m : MemoryItem),
       m ∈ retrieveRelevant l limit now →
       ∃ m0, m0 ∈ l ∧ m = bumpAccess now m0) ∧
    (∀ (l : List MemoryItem) (limit : Nat) (x y : MemoryItem),
       x ∈ (sortByDesc relevanceScore l).take limit →
       y ∈ (sortByDesc relevanceScore l).drop limit →
       relevanceScore y ≤ relevanceScore x) ∧
    (retrieveRelevant [memEx1, memEx2, memEx3] 1 100
        = [bumpAccess 100 memEx2] ∧
     relevanceScore memEx2 = 0.55) := by
  refine ⟨?_, ?_, ?_, ?_, ?_⟩
  · intro l limit now
    simp [retrieveRelevant, sortByDesc,
      (sortBy_perm (fun a => -relevanceScore a) l).length_eq]
  · intro l limit now m hm
    rcases List.mem_map.mp hm with ⟨m0, hm0, rfl⟩
    have h1 : m0 ∈ sortByDesc relevanceScore l := List.take_subset _ _ hm0
    exact ⟨m0, (sortBy_perm (fun a => -relevanceScore a) l).mem_iff.mp h1, rfl⟩
  · intro l limit x y hx hy
    have h := pairwise_take_drop (sortByDesc relevanceScore l) limit
      (pairwise_sortBy (fun a => -relevanceScore a) l) x hx y hy
    simpa using h
  · norm_num [retrieveRelevant, sortByDesc, sortBy, insertBy, relevanceScore,
      bumpAccess, memEx1, memEx2, memEx3]
  · norm_num [relevanceScore, memEx2]

theorem sortByDesc_example :
    sortByDesc relevanceScore [memEx1, memEx2, memEx3]
      = [memEx2, memEx1, memEx3] := by
  norm_num [sortByDesc, sortBy, insertBy, relevanceScore,
    memEx1, memEx2, memEx3]

/-- Witness: on the spec's example the third memory scores at most the
returned second memory. -/
theorem retrieveRelevant_spec_witness :
    relevanceScore memEx3 ≤ relevanceScore memEx2 :=
  retrieveRelevant_spec.2.2.1 [memEx1, memEx2, memEx3] 1 memEx2 memEx3
    (by rw [sortByDesc_example]; simp) (by rw [sortByDesc_example]; simp)

/-! ## ContextManager (mcp-hub/src/context-manager.ts)

The Redis keyspace context:TYPE is modelled as an association list keyed
by the context type; updateContext reads the current layer, computes
version + 1 (or 1 on first write), stores the new layer, and appends a
record carrying the version to the context:history stream. -/

/-- Stored context layer. The id, timestamp and ttl metadata of the source
ContextLayer do not affect versioning and are omitted. -/
structure ContextLayer (α : Type) where
  data : α
  version : Nat
deriving DecidableEq

/-- State of the context store: the per-type entries and the
context:history stream of (type, version) records. The publish channel
carries the same (type, version) payloads as the history stream. -/
structure ContextStore (α : Type) where
  entries : List (String × ContextLayer α)
  history : List (String × Nat)
deriving DecidableEq

/-- Per-key read underlying redis.get(contextKey). -/
def getEntry {α : Type} : List (String × ContextLayer α) → String →
    Option (ContextLayer α)
  | [], _ => none
  | kv :: rest, k => if kv.1 = k then some kv.2 else getEntry rest k

/-- Per-key write underlying redis.set(contextKey, context). -/
def setEntry {α : Type} : List (String × ContextLayer α) → String →
    ContextLayer α → List (String × ContextLayer α)
  | [], k, c => [(k, c)]
  | kv :: rest, k, c =>
    if kv.1 = k then (k, c) :: rest else kv :: setEntry rest k c

/-- ContextManager.updateContext: read the current layer for the type,
take version + 1 (or 1 if absent), store the new layer and append the
(type, version) audit record to the history stream. -/
def updateContext {α : Type} (s : ContextStore α) (typ : String) (data : α) :
    ContextStore α :=
  let version : Nat :=
    match getEntry s.entries typ with
    | some c => c.version + 1
    | none => 1
  { entries := setEntry s.entries typ ⟨data, version⟩,
    history := s.history ++ [(typ, version)] }

/-- ContextManager.getContext: read the stored layer for a type. -/
def getContext {α : Type} (s : ContextStore α) (typ : String) :
    Option (ContextLayer α) :=
  getEntry s.entries typ

/-- Version currently visible through getContext, 0 when absent. -/
def currentVersion {α : Type} (s : ContextStore α) (k : String) : Nat :=
  match getContext s k with
  | some c => c.version
  | none => 0

theorem getEntry_setEntry {α : Type}
    (es : List (String × ContextLayer α)) (k0 k : String) (c : ContextLayer α) :
    getEntry (setEntry es k0 c) k = if k = k0 then some c else getEntry es k := by
  induction es with
  | nil =>
    by_cases h : k = k0
    · simp [setEntry, getEntry, h]
    · have h4 : ¬(k0 = k) := fun hh => h hh.symm
      simp [setEntry, getEntry, h, h4]
  | cons kv rest ih =>
    by_cases h1 : kv.1 = k0
    · by_cases h2 : k = k0
      · simp [setEntry, getEntry, h1, h2]
      · have h3 : ¬(kv.1 = k) := by rw [h1]; exact fun hh => h2 hh.symm
        have h4 : ¬(k0 = k) := fun hh => h2 hh.symm
        simp [setEntry, getEntry, h1, h2, h3, h4]
    · by_cases h2 : kv.1 = k
      · have h3 : ¬(k = k0) := by rw [← h2]; exact fun hh => h1 hh
        simp [setEntry, getEntry, h1, h2, h3]
      · simp [setEntry, getEntry, h1, h2, ih]

/-- Versions a key contributed to the history stream. -/
def histVersions {α : Type} (s : ContextStore α) (k : String) : List Nat :=
  (s.history.filter (fun h => h.1 == k)).map Prod.snd

theorem updateContext_invariant {α : Type} (s : ContextStore α)
    (hInv : ∀ k, histVersions s k = List.range' 1 (currentVersion s k))
    (k0 : String) (d : α) :
    ∀ k, histVersions (updateContext s k0 d) k
      = List.range' 1 (currentVersion (updateContext s k0 d) k) := by
  intro k
  have hver : currentVersion (updateContext s k0 d) k
      = if k = k0 then currentVersion s k0 + 1 else currentVersion s k := by
    simp only [currentVersion, getContext, updateContext, getEntry_setEntry]
    by_cases h : k = k0
    · simp only [if_pos h]
      cases hc : getEntry s.entries k0 <;> simp [hc]
    · simp [h]
  have hhist : histVersions (updateContext s k0 d) k
      = histVersions s k ++ (if k = k0
          then [currentVersion s k0 + 1] else []) := by
    simp only [histVersions, updateContext, List.filter_append, List.map_append]
    congr 1
    by_cases h : k = k0
    · subst h
      simp only [if_pos rfl, List.filter_cons, beq_self_eq_true]
      simp only [currentVersion, getContext]
      cases hc : getEntry s.entries k <;> simp [hc]
    · have h4 : ¬(k0 = k) := fun hh => h hh.symm
      simp [List.filter_cons, h, h4]
  rw [hhist, hver, hInv k]
  by_cases h : k = k0
  · subst h
    simp [List.range'_concat, Nat.add_comm]
  · simp [h]

/-- C2: along any sequence of updateContext calls (on any mix of keys)
starting from an empty store, the versions each key contributes to the
history stream are exactly 1, 2, ..., v where v is the version finally
visible through getContext for that key: versions start at 1 and increase
by exactly one per write to the key, with no repeats or gaps. -/
theorem context_version_monotonic {α : Type} (ops : List (String × α))
    (k : String) :
    histVersions (ops.foldl (fun s p => updateContext s p.1 p.2)
        (ContextStore.mk [] [])) k
      = List.range' 1 (currentVersion
          (ops.foldl (fun s p => updateContext s p.1 p.2)
            (ContextStore.mk [] [])) k) := by
  have main : ∀ (l : List (String × α)) (s : ContextStore α),
      (∀ k1, histVersions s k1 = List.range' 1 (currentVersion s k1)) →
      ∀ k1, histVersions (l.foldl (fun s p => updateContext s p.1 p.2) s) k1
        = List.range' 1
            (currentVersion (l.foldl (fun s p => updateContext s p.1 p.2) s) k1) := by
    intro l
    induction l with
    | nil => intro s h k1; exact h k1
    | cons p l ih =>
      intro s h k1
      exact ih (updateContext s p.1 p.2) (updateContext_invariant s h p.1 p.2) k1
  refine main ops ⟨[], []⟩ ?_ k
  intro k1
  simp [histVersions, currentVersion, getContext, getEntry]

/-! ## AppRegistry and HealthMonitor (mcp-hub/src/app-registry.ts,
mcp-hub/src/context-manager.ts)

The registry map is modelled as a list of registered apps; the app:calls
audit stream and the app:status_change publish channel as append-only
lists. The remote HTTP round trip of callApp is a given outcome: the axios
response when the wire is reached, or the error code thrown. -/

/-- Status of a registered app. -/
inductive AppStatus
  | online
  | offline
  | degraded
deriving DecidableEq

/-- Registered app. The name, type, capabilities and version fields of the
source RegisteredApp never influence call routing and are omitted. -/
structure RegisteredApp where
  id : String
  url : String
  status : AppStatus
  lastSeen : Nat
deriving DecidableEq

/-- Record appended to the app:calls stream for every attempted HTTP
call. -/
structure CallAudit where
  appId : String
  method : String
  ok : Bool
  errCode : Option String
deriving DecidableEq

/-- Registry state: the apps map, the app:calls audit stream and the
app:status_change publications. -/
structure RegistryState where
  apps : List RegisteredApp
  calls : List CallAudit
  statusEvents : List (String × AppStatus)
deriving DecidableEq

/-- Outcome of the remote HTTP round trip, supplied as an input: the
service is an external collaborator. -/
inductive HttpOutcome (ρ : Type)
  | success (resp : ρ)
  | failure (code : String)
deriving DecidableEq

/-- Result surfaced by callApp: a response, or the error thrown (the
App-not-found and App-offline guards, or the rethrown transport error). -/
inductive CallOutcome (ρ : Type)
  | ok (resp : ρ)
  | appNotFound (appId : String)
  | appOffline (appId : String)
  | httpError (code : String)
deriving DecidableEq

/-- Lookup in the apps map. -/
def findApp : List RegisteredApp → String → Option RegisteredApp
  | [], _ => none
  | a :: rest, appId => if a.id = appId then some a else findApp rest appId

/-- Connection-failure test of AppRegistry.callApp:
error.code === ECONNREFUSED or ETIMEDOUT. -/
def connectionError (code : String) : Bool :=
  code == "ECONNREFUSED" || code == "ETIMEDOUT"

/-- AppRegistry.updateAppStatus: if the app exists, set its status,
refresh lastSeen and publish an app:status_change event; otherwise do
nothing. -/
def updateAppStatus (s : RegistryState) (appId : String) (st : AppStatus)
    (now : Nat) : RegistryState :=
  match findApp s.apps appId with
  | none => s
  | some _ =>
    { s with
      apps := s.apps.map (fun a =>
        if a.id = appId then { a with status := st, lastSeen := now } else a),
      statusEvents := s.statusEvents ++ [(appId, st)] }

/-- AppRegistry.callApp: throw App-not-found or App-offline before any
HTTP activity; otherwise perform the HTTP call, append a success or
failure record to the app:calls stream, mark the app offline when the
error code is a connection failure, and rethrow the original error. -/
def callApp {ρ : Type} (s : RegistryState) (appId method : String)
    (http : HttpOutcome ρ) (now : Nat) : RegistryState × CallOutcome ρ :=
  match findApp s.apps appId with
  | none => (s, .appNotFound appId)
  | some app =>
    if app.status = .offline then (s, .appOffline appId)
    else
      match http with
      | .success resp =>
        ({ s with calls := s.calls ++ [⟨appId, method, true, none⟩] },
         .ok resp)
      | .failure code =>
        let s1 := { s with calls := s.calls ++ [⟨appId, method, false, some code⟩] }
        (if connectionError code
         then updateAppStatus s1 appId .offline now
         else s1,
         .httpError code)

/-- HealthMonitor.checkAppHealth: probe the app through callApp with the
health operation; report online on a response and offline on any thrown
error. -/
def checkAppHealth {ρ : Type} (s : RegistryState) (appId : String)
    (http : HttpOutcome ρ) (now : Nat) : RegistryState × AppStatus :=
  match callApp s appId "health" http now with
  | (s1, .ok _) => (s1, .online)
  | (s1, _) => (s1, .offline)

/-- One app's slice of HealthMonitor.checkAllApps: probe the app and store
the probed status through updateAppStatus. -/
def healthCheckApp {ρ : Type} (s : RegistryState) (appId : String)
    (http : HttpOutcome ρ) (now : Nat) : RegistryState :=
  let r := checkAppHealth s appId http now
  updateAppStatus r.1 appId r.2 now

theorem findApp_map_status (apps : List RegisteredApp) (appId : String)
    (app : RegisteredApp) (st : AppStatus) (now : Nat)
    (h : findApp apps appId = some app) :
    findApp (apps.map (fun a =>
        if a.id = appId then { a with status := st, lastSeen := now } else a))
        appId
      = some { app with status := st, lastSeen := now } := by
  induction apps with
  | nil => simp [findApp] at h
  | cons a rest ih =>
    by_cases ha : a.id = appId
    · simp only [findApp, if_pos ha] at h
      injection h with h
      subst h
      simp [findApp, ha]
    · simp only [findApp, if_neg ha] at h
      simp [findApp, ha, ih h]

/-- C10: when the target id is absent from the registry, or present with
status offline, callApp throws the corresponding guard error and returns
the state unchanged — no call-audit record, no status change — and the
result is the same for every possible remote behaviour, so the remote
service is never contacted. -/
theorem callApp_guard {ρ : Type} (s : RegistryState) (appId method : String)
    (now : Nat) :
    (findApp s.apps appId = none →
       ∀ http : HttpOutcome ρ,
         callApp s appId method http now = (s, CallOutcome.appNotFound appId)) ∧
    (∀ app, findApp s.apps appId = some app → app.status = AppStatus.offline →
       ∀ http : HttpOutcome ρ,
         callApp s appId method http now = (s, CallOutcome.appOffline appId)) := by
  constructor
  · intro h http
    simp [callApp, h]
  · intro app h hoff http
    simp [callApp, h, hoff]

/-- Registered app used in the concrete registry scenarios, online. -/
def dataHubOnline : RegisteredApp := ⟨"data-hub", "http://data-hub", .online, 0⟩

/-- Registry holding one online app and empty audit streams. -/
def regOnline : RegistryState := ⟨[dataHubOnline], [], []⟩

/-- Registry state after one timed-out call on the online registry: the
app is marked offline, the failed call is audited and the status change
published. -/
def regAfterTimeout : RegistryState :=
  ⟨[⟨"data-hub", "http://data-hub", .offline, 1⟩],
   [⟨"data-hub", "get_data", false, some "ETIMEDOUT"⟩],
   [("data-hub", .offline)]⟩

/-- Witness: the guards fire on a registry with one offline app and on an
unknown id, leaving the state untouched. -/
theorem callApp_guard_witness :
    callApp regAfterTimeout "missing" "health"
        (HttpOutcome.success () : HttpOutcome Unit) 5
      = (regAfterTimeout, CallOutcome.appNotFound "missing") ∧
    callApp regAfterTimeout "data-hub" "health"
        (HttpOutcome.success () : HttpOutcome Unit) 5
      = (regAfterTimeout, CallOutcome.appOffline "data-hub") :=
  ⟨(callApp_guard regAfterTimeout "missing" "health" 5).1
      (by simp [regAfterTimeout, findApp]) _,
   (callApp_guard regAfterTimeout "data-hub" "health" 5).2
      ⟨"data-hub", "http://data-hub", .offline, 1⟩
      (by simp [regAfterTimeout, findApp]) rfl _⟩

/-- C7: for a registered, non-offline target whose HTTP call fails, callApp
appends a failed call-audit record, rethrows the error, and — exactly when
the error code is ECONNREFUSED or ETIMEDOUT — marks the target offline and
publishes the status change; for any other error code the apps map and the
publish stream are untouched. -/
theorem callApp_failure_classification {ρ : Type} (s : RegistryState)
    (appId method code : String) (now : Nat) (app : RegisteredApp)
    (hfind : findApp s.apps appId = some app)
    (hon : app.status ≠ AppStatus.offline) :
    ((callApp s appId method (HttpOutcome.failure code : HttpOutcome ρ) now).2
        = CallOutcome.httpError code) ∧
    ((callApp s appId method (HttpOutcome.failure code : HttpOutcome ρ) now).1.calls
        = s.calls ++ [⟨appId, method, false, some code⟩]) ∧
    (connectionError code = true →
       findApp (callApp s appId method
           (HttpOutcome.failure code : HttpOutcome ρ) now).1.apps appId
         = some { app with status := AppStatus.offline, lastSeen := now } ∧
       (callApp s appId method
           (HttpOutcome.failure code : HttpOutcome ρ) now).1.statusEvents
         = s.statusEvents ++ [(appId, AppStatus.offline)]) ∧
    (connectionError code = false →
       (callApp s appId method
           (HttpOutcome.failure code : HttpOutcome ρ) now).1.apps = s.apps ∧
       (callApp s appId method
           (HttpOutcome.failure code : HttpOutcome ρ) now).1.statusEvents
         = s.statusEvents) := by
  by_cases hc : connectionError code
  · refine ⟨?_, ?_, ?_, ?_⟩ <;>
      simp [callApp, hfind, hon, hc, updateAppStatus,
        findApp_map_status s.apps appId app AppStatus.offline now hfind]
  · refine ⟨?_, ?_, ?_, ?_⟩ <;>
      simp [callApp, hfind, hon, hc, updateAppStatus]

/-- Witness: an ECONNREFUSED failure against the online registry audits
the call, marks the app offline and publishes the change. -/
theorem callApp_failure_classification_witness :
    ((callApp regOnline "data-hub" "get_data"
        (HttpOutcome.failure "ECONNREFUSED" : HttpOutcome Unit) 7).2
      = CallOutcome.httpError "ECONNREFUSED") ∧
    findApp (callApp regOnline "data-hub" "get_data"
        (HttpOutcome.failure "ECONNREFUSED" : HttpOutcome Unit) 7).1.apps "data-hub"
      = some { dataHubOnline with status := AppStatus.offline, lastSeen := 7 } :=
  ⟨(callApp_failure_classification regOnline "data-hub" "get_data" "ECONNREFUSED"
      7 dataHubOnline (by simp [regOnline, findApp, dataHubOnline]) (by simp [dataHubOnline])).1,
   ((callApp_failure_classification regOnline "data-hub" "get_data" "ECONNREFUSED"
      7 dataHubOnline (by simp [regOnline, findApp, dataHubOnline]) (by simp [dataHubOnline])).2.2.1
      (by simp [connectionError])).1⟩

/-- C5: one ETIMEDOUT failure marks the online app offline with an audited
call and a published status change (first conjunct), but the health loop
can never move it back online: checkAppHealth probes through callApp,
whose offline guard throws before any HTTP request, so the probe reports
offline for every remote behaviour and leaves the state unchanged, and a
health pass over a healthy remote keeps the app offline. -/
theorem health_loop_cannot_restore_online :
    ((callApp regOnline "data-hub" "get_data"
        (HttpOutcome.failure "ETIMEDOUT" : HttpOutcome Unit) 1).1
      = regAfterTimeout) ∧
    (∀ (http : HttpOutcome Unit) (now : Nat),
       checkAppHealth regAfterTimeout "data-hub" http now
         = (regAfterTimeout, AppStatus.offline)) ∧
    ((findApp (healthCheckApp regAfterTimeout "data-hub"
          (HttpOutcome.success () : HttpOutcome Unit) 2).apps "data-hub").map
        RegisteredApp.status
      = some AppStatus.offline) := by
  refine ⟨?_, ?_, ?_⟩
  · simp [callApp, regOnline, dataHubOnline, findApp, connectionError,
      updateAppStatus, regAfterTimeout]
  · intro http now
    cases http <;>
      simp [checkAppHealth, callApp, regAfterTimeout, findApp]
  · simp [healthCheckApp, checkAppHealth, callApp, updateAppStatus,
      regAfterTimeout, findApp]

/-! ## CircuitBreaker (shared/utils/error-handling.ts)

One execute call is a step function on the breaker state, parameterised by
the call time and whether the wrapped operation succeeds. -/

/-- Breaker state constant of the source: closed, open or half-open. -/
inductive BreakerState
  | closed
  | opened
  | halfOpen
deriving DecidableEq

/-- CircuitBreaker instance state: consecutive-failure counter, time of
the last failure, current state, and the constructor parameters threshold
(default 5) and timeout (default 60000 ms). -/
structure CircuitBreaker where
  failures : Nat
  lastFailureTime : Option Nat
  state : BreakerState
  threshold : Nat
  timeout : Nat
deriving DecidableEq

/-- Freshly constructed breaker with the default parameters. -/
def CircuitBreaker.init : CircuitBreaker := ⟨0, none, .closed, 5, 60000⟩

/-- Result of one execute call: rejected while open, or the operation's
own success or rethrown failure. -/
inductive BreakerResult
  | rejected
  | succeeded
  | failed
deriving DecidableEq

/-- CircuitBreaker.execute: an open breaker rejects unless the cool-down
has elapsed, in which case it becomes half-open for this call; a
successful operation closes a half-open breaker and resets the counter
(and changes nothing when closed); a failed operation increments the
counter, stamps the failure time, opens the breaker once the counter
reaches the threshold, and rethrows. -/
def cbExecute (cb : CircuitBreaker) (now : Nat) (opOk : Bool) :
    CircuitBreaker × BreakerResult :=
  let guard : Option CircuitBreaker :=
    match cb.state with
    | .opened =>
      if now - cb.lastFailureTime.getD 0 > cb.timeout
      then some { cb with state := .halfOpen }
      else none
    | _ => some cb
  match guard with
  | none => (cb, .rejected)
  | some cb1 =>
    if opOk then
      if cb1.state = .halfOpen
      then ({ cb1 with state := .closed, failures := 0 }, .succeeded)
      else (cb1, .succeeded)
    else
      ({ cb1 with
          failures := cb1.failures + 1,
          lastFailureTime := some now,
          state := if cb1.failures + 1 ≥ cb1.threshold
                   then .opened else cb1.state },
       .failed)

/-- Event sequence alternating failure and success: five failures total,
never two in a row. -/
def cbEvents : List (Nat × Bool) :=
  [(0, false), (1, true), (2, false), (3, true), (4, false),
   (5, true), (6, false), (7, true), (8, false)]

/-- Adjacent-failure test: true when some failure is immediately followed
by another failure. -/
def hasConsecutiveFailures : List (Nat × Bool) → Bool
  | (_, o1) :: (t2, o2) :: rest =>
    (!o1 && !o2) || hasConsecutiveFailures ((t2, o2) :: rest)
  | _ => false

/-- Counterexample to C8 as stated: the breaker opens after five
cumulative failures even though no two failures were consecutive, because
a success in the closed state does not reset the failure counter. -/
theorem circuit_breaker_counterexample :
    (cbEvents.foldl (fun cb p => (cbExecute cb p.1 p.2).1)
        CircuitBreaker.init).state = BreakerState.opened ∧
    hasConsecutiveFailures cbEvents = false := by
  decide

/-- C8 amended: the breaker opens once the cumulative failure count —
which a success in the closed state does not reset — reaches the
threshold of 5; while open it rejects every call until more than the
60-second cool-down has passed since the last failure, then admits one
trial call in half-open state, closing and resetting the counter when the
trial succeeds and reopening when it fails. -/
theorem circuit_breaker_amended (cb : CircuitBreaker) (now t : Nat)
    (hlt : cb.lastFailureTime = some t) :
    (cb.state = BreakerState.opened → ¬(now - t > cb.timeout) →
       ∀ opOk, cbExecute cb now opOk = (cb, BreakerResult.rejected)) ∧
    (cb.state = BreakerState.opened → now - t > cb.timeout →
       cb.threshold ≤ cb.failures →
       cbExecute cb now true
         = ({ cb with state := BreakerState.closed, failures := 0 },
            BreakerResult.succeeded) ∧
       (cbExecute cb now false).1.state = BreakerState.opened ∧
       (cbExecute cb now false).1.failures = cb.failures + 1) ∧
    (cb.state = BreakerState.closed →
       cbExecute cb now true = (cb, BreakerResult.succeeded) ∧
       ((cbExecute cb now false).1.state = BreakerState.opened
          ↔ cb.threshold ≤ cb.failures + 1) ∧
       (cbExecute cb now false).1.failures = cb.failures + 1 ∧
       (cbExecute cb now false).1.lastFailureTime = some now) := by
  refine ⟨?_, ?_, ?_⟩
  · intro hst helapsed opOk
    simp [cbExecute, hst, hlt, helapsed]
  · intro hst helapsed hthr
    refine ⟨?_, ?_, ?_⟩ <;>
      simp [cbExecute, hst, hlt, helapsed, hthr, Nat.le_succ_of_le hthr]
  · intro hst
    refine ⟨?_, ?_, ?_, ?_⟩
    · simp [cbExecute, hst]
    · constructor
      · intro h
        by_cases hthr : cb.failures + 1 ≥ cb.threshold
        · exact hthr
        · simp [cbExecute, hst, hthr] at h
      · intro hthr
        simp [cbExecute, hst, hthr]
    · simp [cbExecute, hst]
    · simp [cbExecute, hst]

/-- Witness: an open breaker with an elapsed cool-down closes and resets
on a successful trial call. -/
theorem circuit_breaker_amended_witness :
    cbExecute ⟨5, some 0, .opened, 5, 60000⟩ 70001 true
      = (⟨0, some 0, .closed, 5, 60000⟩, BreakerResult.succeeded) :=
  ((circuit_breaker_amended ⟨5, some 0, .opened, 5, 60000⟩ 70001 0 rfl).2.1
    rfl (by decide) (by decide)).1

/-! ## MasterCoordinator workflow engine

executeDailyOperations walks a fixed step list; each step invocation is an
agent call returning either a step result or a thrown error message, given
as a behaviour function of the step name and the results accumulated so
far. executeWorkflow wraps the walk, marking the workflow completed on a
normal return and failed on a propagated error. -/

/-- Result value returned by an agent for one step; its payload is opaque
to the engine except for the halt flag (stepResult.halt_workflow). -/
structure StepResult where
  haltWorkflow : Bool
deriving DecidableEq, Inhabited

/-- Status of one step record. -/
inductive StepStatus
  | running
  | completed
  | failed
deriving DecidableEq

/-- Step record pushed onto workflow.steps; a record is created as running
and finalised to completed (with its result) or failed (with the error
message) before the engine moves on. -/
structure StepRecord where
  name : String
  status : StepStatus
  result : Option StepResult
  error : Option String
deriving DecidableEq

/-- Behaviour of the bound agents: the outcome of executing the named
action given the previous results map. -/
def Behavior : Type :=
  String → List (String × StepResult) → Except String StepResult

/-- MasterCoordinator.isCriticalStep: membership in the static critical
step set. -/
def isCriticalStep (stepName : String) : Bool :=
  ["risk_check", "compliance_check", "execution_planning"].contains stepName

/-- Step list of MasterCoordinator.executeDailyOperations, in order, with
the bound agent ids. -/
def dailyOperationsSteps : List (String × String) :=
  [("market_analysis", "market_analyst"),
   ("portfolio_review", "performance_analyst"),
   ("risk_check", "risk_monitor"),
   ("strategy_ranking", "strategy_ranker"),
   ("compliance_check", "compliance"),
   ("execution_planning", "execution"),
   ("report_generation", "reporting")]

/-- Step loop of executeDailyOperations: push a record, invoke the agent;
on success finalise the record as completed, merge the result and stop
early only on the halt flag; on failure finalise the record as failed and
rethrow exactly when the step is critical, otherwise continue. Returns the
accumulated step records and the normal result or propagated error. -/
def runSteps (behave : Behavior) :
    List (String × String) → List (String × StepResult) → List StepRecord →
      List StepRecord × Except String (List (String × StepResult))
  | [], results, recs => (recs, .ok results)
  | (name, _) :: rest, results, recs =>
    match behave name results with
    | .ok r =>
      if r.haltWorkflow
      then (recs ++ [⟨name, .completed, some r, none⟩],
            .ok (results ++ [(name, r)]))
      else runSteps behave rest (results ++ [(name, r)])
             (recs ++ [⟨name, .completed, some r, none⟩])
    | .error e =>
      if isCriticalStep name
      then (recs ++ [⟨name, .failed, none, some e⟩], .error e)
      else runSteps behave rest results
             (recs ++ [⟨name, .failed, none, some e⟩])

/-- Workflow status as set by executeWorkflow. -/
inductive WorkflowStatus
  | running
  | completed
  | failed
deriving DecidableEq

/-- Workflow record visible after executeWorkflow returns or throws. -/
structure Workflow where
  status : WorkflowStatus
  steps : List StepRecord
  error : Option String
deriving DecidableEq

/-- MasterCoordinator.executeWorkflow for the daily_operations kind: run
the step loop; on a normal return mark the workflow completed, on a
propagated error mark it failed, record the message and rethrow. -/
def executeDailyWorkflow (behave : Behavior) :
    Workflow × Except String (List (String × StepResult)) :=
  match runSteps behave dailyOperationsSteps [] [] with
  | (recs, .ok r) => (⟨.completed, recs, none⟩, .ok r)
  | (recs, .error e) => (⟨.failed, recs, some e⟩, .error e)

theorem runSteps_ok_step (behave : Behavior) (name ag : String)
    (rest : List (String × String)) (results : List (String × StepResult))
    (recs : List StepRecord) (r : StepResult)
    (hok : behave name results = .ok r) (hhalt : r.haltWorkflow = false) :
    runSteps behave ((name, ag) :: rest) results recs
      = runSteps behave rest (results ++ [(name, r)])
          (recs ++ [⟨name, .completed, some r, none⟩]) := by
  simp [runSteps, hok, hhalt]

theorem runSteps_noncritical_fail (behave : Behavior) (name ag : String)
    (rest : List (String × String)) (results : List (String × StepResult))
    (recs : List StepRecord) (e : String)
    (hnc : isCriticalStep name = false) (hfail : behave name results = .error e) :
    runSteps behave ((name, ag) :: rest) results recs
      = runSteps behave rest results (recs ++ [⟨name, .failed, none, some e⟩]) := by
  simp [runSteps, hfail, hnc]

/-- C1: risk_check is critical, and whenever the next step of a
daily-operations run is critical and its agent fails, the run ends
immediately with exactly one more record, marked failed with the error
message, and the error propagated — the equation holds for every
remaining tail, so no later step is invoked; the wrapper then marks any
run whose loop propagated an error as a failed workflow rethrowing that
error. -/
theorem critical_step_abort (behave : Behavior) (name ag : String)
    (rest : List (String × String)) (results : List (String × StepResult))
    (recs : List StepRecord) (e : String)
    (hcrit : isCriticalStep name = true)
    (hfail : behave name results = .error e) :
    runSteps behave ((name, ag) :: rest) results recs
      = (recs ++ [⟨name, .failed, none, some e⟩], .error e) ∧
    isCriticalStep "risk_check" = true ∧
    (∀ (behave1 : Behavior) (e1 : String),
       (runSteps behave1 dailyOperationsSteps [] []).2 = .error e1 →
       (executeDailyWorkflow behave1).1.status = .failed ∧
       (executeDailyWorkflow behave1).1.error = some e1 ∧
       (executeDailyWorkflow behave1).2 = .error e1 ∧
       (executeDailyWorkflow behave1).1.steps
         = (runSteps behave1 dailyOperationsSteps [] []).1) := by
  refine ⟨by simp [runSteps, hfail, hcrit], by decide, ?_⟩
  intro behave1 e1 herr
  unfold executeDailyWorkflow
  rcases hrun : runSteps behave1 dailyOperationsSteps [] [] with ⟨recs1, res1⟩
  rw [hrun] at herr
  simp only at herr
  subst herr
  simp

/-- Behaviour whose risk_check action always fails and whose other actions
succeed without halting. -/
def failRiskBehavior : Behavior := fun name _ =>
  if name == "risk_check" then .error "risk limit breached" else .ok ⟨false⟩

/-- Witness: a run positioned at risk_check with a failing risk agent
yields exactly the failed record and the propagated error. -/
theorem critical_step_abort_witness :
    runSteps failRiskBehavior
        [("risk_check", "risk_monitor"), ("strategy_ranking", "strategy_ranker")]
        [] []
      = ([⟨"risk_check", .failed, none, some "risk limit breached"⟩],
         .error "risk limit breached") :=
  (critical_step_abort failRiskBehavior "risk_check" "risk_monitor"
    [("strategy_ranking", "strategy_ranker")] [] [] "risk limit breached"
    (by decide) rfl).1

/-- C6: a failure of a non-critical step appends a failed record and
continues with the next step, and a daily-operations run in which every
step except report_generation succeeds without halting while
report_generation fails still completes the workflow, with a failed step
record for report_generation in the workflow's step list. -/
theorem noncritical_step_continue :
    (∀ (behave : Behavior) (name ag : String)
       (rest : List (String × String)) (results : List (String × StepResult))
       (recs : List StepRecord) (e : String),
       isCriticalStep name = false → behave name results = .error e →
       runSteps behave ((name, ag) :: rest) results recs
         = runSteps behave rest results
             (recs ++ [⟨name, .failed, none, some e⟩])) ∧
    (∀ (behave : Behavior)
       (f : String → List (String × StepResult) → StepResult) (e : String),
       (∀ n r, (f n r).haltWorkflow = false) →
       (∀ n r, n ≠ "report_generation" → behave n r = .ok (f n r)) →
       (∀ r, behave "report_generation" r = .error e) →
       (executeDailyWorkflow behave).1.status = .completed ∧
       StepRecord.mk "report_generation" .failed none (some e)
         ∈ (executeDailyWorkflow behave).1.steps) := by
  constructor
  · intro behave name ag rest results recs e hnc hfail
    exact runSteps_noncritical_fail behave name ag rest results recs e hnc hfail
  · intro behave f e hhalt hok hrep
    have hrun : ∃ v, (runSteps behave dailyOperationsSteps [] []).2 = Except.ok v ∧
        StepRecord.mk "report_generation" .failed none (some e)
          ∈ (runSteps behave dailyOperationsSteps [] []).1 := by
      rw [dailyOperationsSteps]
      rw [runSteps_ok_step behave "market_analysis" "market_analyst" _ _ _ _
        (hok _ _ (by decide)) (hhalt _ _)]
      rw [runSteps_ok_step behave "portfolio_review" "performance_analyst" _ _ _ _
        (hok _ _ (by decide)) (hhalt _ _)]
      rw [runSteps_ok_step behave "risk_check" "risk_monitor" _ _ _ _
        (hok _ _ (by decide)) (hhalt _ _)]
      rw [runSteps_ok_step behave "strategy_ranking" "strategy_ranker" _ _ _ _
        (hok _ _ (by decide)) (hhalt _ _)]
      rw [runSteps_ok_step behave "compliance_check" "compliance" _ _ _ _
        (hok _ _ (by decide)) (hhalt _ _)]
      rw [runSteps_ok_step behave "execution_planning" "execution" _ _ _ _
        (hok _ _ (by decide)) (hhalt _ _)]
      rw [runSteps_noncritical_fail behave "report_generation" "reporting" _ _ _ _
        (by decide) (hrep _)]
      simp only [runSteps]
      refine ⟨_, rfl, ?_⟩
      simp
    obtain ⟨v, hv, hmem⟩ := hrun
    rcases hres : runSteps behave dailyOperationsSteps [] [] with ⟨recs1, res1⟩
    rw [hres] at hv hmem
    simp only at hv hmem
    subst hv
    constructor
    · simp [executeDailyWorkflow, hres]
    · simp only [executeDailyWorkflow, hres]
      simpa using hmem

/-- Behaviour whose report_generation action always fails and whose other
actions succeed without halting. -/
def reportFailsBehavior : Behavior := fun name _ =>
  if name == "report_generation" then .error "printer jam" else .ok ⟨false⟩

/-- Successful step results produced by reportFailsBehavior. -/
def okStepResult : String → List (String × StepResult) → StepResult :=
  fun _ _ => ⟨false⟩

/-- Witness: the daily run with only report_generation failing completes
and carries the failed report_generation record. -/
theorem noncritical_step_continue_witness :
    (executeDailyWorkflow reportFailsBehavior).1.status
        = WorkflowStatus.completed ∧
    StepRecord.mk "report_generation" .failed none (some "printer jam")
      ∈ (executeDailyWorkflow reportFailsBehavior).1.steps :=
  noncritical_step_continue.2 reportFailsBehavior okStepResult "printer jam"
    (fun _ _ => rfl)
    (fun n r hn => by simp [reportFailsBehavior, okStepResult, hn])
    (fun _ => rfl)

/-! ## ReasoningEngine (ai-coo/src/core/reasoning-engine.ts)

ReasoningEngine.evaluate runs the deductive and the probabilistic strategy
and merges their decisions through combineDecisions; each strategy's
decision is an input here (the deductive strategy's condition matching is
a Math.random placeholder in the source). -/

/-- Decision produced by a reasoning strategy. The parameters payload is
opaque and omitted. -/
structure Decision where
  actionType : String
  description : String
  expectedOutcome : String
  confidence : ℚ
  reasoning : List String
deriving DecidableEq

/-- Vote accumulation of combineDecisions, modelling the insertion-ordered
JavaScript Map: an existing key keeps its position, a new key is
appended. -/
def addVote : List (String × ℚ) → String → ℚ → List (String × ℚ)
  | [], k, w => [(k, w)]
  | kv :: rest, k, w =>
    if kv.1 = k then (kv.1, kv.2 + w) :: rest else kv :: addVote rest k w

/-- Vote scan of combineDecisions: starting from empty bestAction and zero
maxVotes, replace the leader whenever a later entry has strictly more
votes. -/
def bestVote (votes : List (String × ℚ)) : String × ℚ :=
  votes.foldl (fun acc kv => if kv.2 > acc.2 then kv else acc) ("", 0)

/-- First-occurrence deduplication, modelling the JavaScript
Set-of-array-spread idiom. -/
def dedupFirst {α : Type} [DecidableEq α] : List α → List α
  | [] => []
  | a :: l => a :: dedupFirst (l.filter (fun x => x ≠ a))
termination_by l => l.length
decreasing_by
  simp only [List.length_cons]
  exact Nat.lt_succ_of_le (List.length_filter_le _ _)

/-- ReasoningEngine.combineDecisions: the total weight is the sum of the
confidences, the weighted confidence the sum of squared confidences; each
decision votes for its action type with weight equal to its confidence;
the winning action's first proposing decision is copied with confidence
weightedConfidence / totalWeight and the deduplicated union of all
reasoning. An empty decision list is a JavaScript runtime error, modelled
as none. -/
def combineDecisions (decisions : List Decision) : Option Decision :=
  match decisions with
  | [] => none
  | d0 :: _ =>
    let totalWeight := (decisions.map (fun d => d.confidence)).sum
    let weightedConfidence :=
      (decisions.map (fun d => d.confidence * d.confidence)).sum
    let allReasoning := decisions.foldl (fun acc d => acc ++ d.reasoning) []
    let votes := decisions.foldl (fun vs d => addVote vs d.actionType d.confidence) []
    let best := bestVote votes
    let finalDecision := (decisions.find? (fun d => d.actionType == best.1)).getD d0
    some { finalDecision with
           confidence := weightedConfidence / totalWeight,
           reasoning := dedupFirst allReasoning }

/-- Strategy decision with confidence 1/2 proposing analyze. -/
def decisionA : Decision := ⟨"analyze", "a", "oa", 1/2, ["ra"]⟩

/-- Strategy decision with confidence 1/4 also proposing analyze. -/
def decisionB : Decision := ⟨"analyze", "b", "ob", 1/4, ["rb"]⟩

/-- Counterexample to C9 as stated: two agreeing strategies with
confidences 1/2 and 1/4 yield combined confidence 5/12 — the
confidence-weighted average (1/4 + 1/16) / (3/4) — not the plain average
3/8 of the agreeing strategies. -/
theorem combineDecisions_counterexample :
    (combineDecisions [decisionA, decisionB]).map Decision.confidence
        = some (5/12) ∧
    ((5 : ℚ)/12) ≠ (decisionA.confidence + decisionB.confidence) / 2 := by
  constructor
  · norm_num [combineDecisions, addVote, bestVote, dedupFirst,
      decisionA, decisionB, List.filter]
  · norm_num [decisionA, decisionB]

/-- C9 amended: for the two strategy decisions of evaluate, the action
kind with the larger summed confidence wins (the deductive, first decision
on ties), and the combined confidence is the sum of squared confidences
divided by the sum of confidences over both strategies — a
confidence-weighted average of all confidences, not the plain average of
the agreeing ones. -/
theorem combineDecisions_amended (d1 d2 : Decision)
    (h1 : 0 < d1.confidence) (h2 : 0 < d2.confidence) :
    ∃ r, combineDecisions [d1, d2] = some r ∧
      r.confidence = (d1.confidence * d1.confidence
          + d2.confidence * d2.confidence)
          / (d1.confidence + d2.confidence) ∧
      (d1.actionType = d2.actionType → r.actionType = d1.actionType) ∧
      (d1.actionType ≠ d2.actionType → d1.confidence < d2.confidence →
         r.actionType = d2.actionType) ∧
      (d1.actionType ≠ d2.actionType → d2.confidence ≤ d1.confidence →
         r.actionType = d1.actionType) := by
  by_cases hT : d1.actionType = d2.actionType
  · refine ⟨_, rfl, ?_, ?_, ?_, ?_⟩
    · simp [combineDecisions, addVote, bestVote, hT]
    · intro _
      have hpos : 0 < d1.confidence + d2.confidence := by positivity
      simp [combineDecisions, addVote, bestVote, hT, hpos]
    · intro hne; exact absurd hT hne
    · intro hne; exact absurd hT hne
  · by_cases hC : d1.confidence < d2.confidence
    · refine ⟨_, rfl, ?_, ?_, ?_, ?_⟩
      · simp [combineDecisions, addVote, bestVote, hT]
      · intro hEq; exact absurd hEq hT
      · intro _ _
        have hT2 : ¬(d2.actionType = d1.actionType) := fun hh => hT hh.symm
        simp [combineDecisions, addVote, bestVote, hT, hT2, h1, hC]
      · intro _ hge; exact absurd hC (not_lt.mpr hge)
    · refine ⟨_, rfl, ?_, ?_, ?_, ?_⟩
      · simp [combineDecisions, addVote, bestVote, hT]
      · intro hEq; exact absurd hEq hT
      · intro _ hlt; exact absurd hlt hC
      · intro _ _
        simp [combineDecisions, addVote, bestVote, hT, h1, hC]

/-- Strategy decision with confidence 1/2 proposing analyze, for the
amended-claim witness. -/
def decisionW1 : Decision := ⟨"analyze", "w1", "o1", 1/2, []⟩

/-- Strategy decision with confidence 3/4 proposing wait, for the
amended-claim witness. -/
def decisionW2 : Decision := ⟨"wait", "w2", "o2", 3/4, []⟩

/-- Witness: with distinct action kinds and confidences 1/2 against 3/4,
the combination exists with the stated confidence and kind selection. -/
theorem combineDecisions_amended_witness :
    ∃ r, combineDecisions [decisionW1, decisionW2] = some r ∧
      r.confidence = (decisionW1.confidence * decisionW1.confidence
          + decisionW2.confidence * decisionW2.confidence)
          / (decisionW1.confidence + decisionW2.confidence) ∧
      (decisionW1.actionType = decisionW2.actionType →
         r.actionType = decisionW1.actionType) ∧
      (decisionW1.actionType ≠ decisionW2.actionType →
         decisionW1.confidence < decisionW2.confidence →
         r.actionType = decisionW2.actionType) ∧
      (decisionW1.actionType ≠ decisionW2.actionType →
         decisionW2.confidence ≤ decisionW1.confidence →
         r.actionType = decisionW1.actionType) :=
  combineDecisions_amended decisionW1 decisionW2
    (by norm_num [decisionW1]) (by norm_num [decisionW2])

end FieldElevate
